import Mathlib

/-!
Verification of the quick-csv streaming tokenizer (src/lib.rs) against its
natural-language specification.  Bytes are modelled as natural numbers
(34 = quote, 10 = line feed, 13 = carriage return, 44 = comma), chunks as
lists of bytes, and the buffered source as the list of chunks that remain.
-/

namespace QuickCsv

/-- Error kinds of the reader.  The first three mirror the variants used in
src/lib.rs (`Error::UnescapedQuote`, `Error::UnexpextedQuote`,
`Error::ColumnMismatch`); `invalidEncoding` and `ioError` are modelled from
the spec since error.rs is not under src/. -/
inductive Error where
  | unescapedQuote
  | unexpectedQuote
  | columnMismatch (expected actual : Nat)
  | invalidEncoding
  | ioError
deriving DecidableEq, Repr

/-- Outcome of scanning one chunk: either the record-terminating newline was
found at chunk index `i`, or the chunk was exhausted with the given quote
state (`cont true` means a quoted field is still open). -/
inductive ChunkEnd where
  | term (i : Nat)
  | cont (inQuote : Bool)
deriving DecidableEq, Repr

/-- The scanning loop of `read_line` in src/lib.rs, with the inlined
`consume_quote!` macro rendered as the `true` (in-quote) mode.  Arguments:
the remaining bytes of the chunk, the chunk index `p` of the head byte, the
byte preceding the head (`none` at chunk start, mirroring the
`i == 0 || available[i - 1] == delimiter` test), and the quote state.
Returns the chunk-relative offsets at which column boundaries were recorded
together with how the chunk ended. -/
def scan (delim : Nat) : List Nat → Nat → Option Nat → Bool → Except Error (List Nat × ChunkEnd)
  | [], _, _, inQ => .ok ([], .cont inQ)
  | [b], _p, _prev, true =>
    if b = 34 then .ok ([], .cont false) else .ok ([], .cont true)
  | b :: c :: rest2, p, _prev, true =>
    if b = 34 then
      if c = 34 then scan delim rest2 (p+2) (some 34) true
      else if c = 13 ∨ c = 10 ∨ c = delim then scan delim (c :: rest2) (p+1) (some 34) false
      else .error .unescapedQuote
    else scan delim (c :: rest2) (p+1) (some b) true
  | b :: rest, p, prev, false =>
    if b = 34 then
      if p = 0 ∨ prev = some delim then scan delim rest (p+1) (some 34) true
      else .error .unexpectedQuote
    else if b = 10 then .ok ([], .term p)
    else if b = delim then
      match scan delim rest (p+1) (some b) false with
      | .error e => .error e
      | .ok (cs, en) => .ok (p :: cs, en)
    else scan delim rest (p+1) (some b) false

/-- Quote consumption as invoked by the two call sites of the
`consume_quote!` macro: scanning in quote mode. -/
def consume_quote (delim : Nat) (l : List Nat) (p : Nat) (prev : Option Nat) :
    Except Error (List Nat × ChunkEnd) :=
  scan delim l p prev true

/-- The `read_line` function of src/lib.rs.  The source state is the list of
chunks still to be served; an empty chunk means the source reports
end-of-stream (`Ok(n) if n.is_empty() => return Ok(read)`).  Accumulates the
row buffer `buf` and the absolute column offsets `cols`; returns the total
bytes consumed, the buffer, the offsets and the remaining source state. -/
def read_line (delim : Nat) : List (List Nat) → Bool → Nat → List Nat → List Nat →
    Except Error (Nat × List Nat × List Nat × List (List Nat))
  | [], _, read, buf, cols => .ok (read, buf, cols, [])
  | av :: rest, inQ, read, buf, cols =>
    if av = [] then .ok (read, buf, cols, av :: rest)
    else
      match scan delim av 0 none inQ with
      | .error e => .error e
      | .ok (cs, .term i) =>
        .ok (read + i + 1, buf ++ av.take i, cols ++ cs.map (fun j => read + j),
          if av.drop (i+1) = [] then rest else av.drop (i+1) :: rest)
      | .ok (cs, .cont q) =>
        read_line delim rest q (read + av.length) (buf ++ av) (cols ++ cs.map (fun j => read + j))

/-- A produced row: the owned line buffer and the column-end offsets,
mirroring `struct Row` in src/lib.rs. -/
structure Row where
  line : List Nat
  cols : List Nat
deriving DecidableEq, Repr

/-- Column count of a row (`Row::len` in src/lib.rs). -/
def Row.len (r : Row) : Nat := r.cols.length

/-- Reader state, mirroring `struct Csv` in src/lib.rs (header plumbing,
which the claims do not touch, is omitted): the delimiter, the `flexible`
flag, the learned column count `len`, the `exit` flag and the source state. -/
structure Csv where
  delimiter : Nat
  flexible : Bool
  len : Option Nat
  exit : Bool
  chunks : List (List Nat)
deriving DecidableEq, Repr

instance : DecidableEq (Except Error Row)
  | .error x, .error y =>
    if h : x = y then .isTrue (by rw [h]) else .isFalse (by intro hc; cases hc; exact h rfl)
  | .error _, .ok _ => .isFalse (by intro hc; cases hc)
  | .ok _, .error _ => .isFalse (by intro hc; cases hc)
  | .ok x, .ok y =>
    if h : x = y then .isTrue (by rw [h]) else .isFalse (by intro hc; cases hc; exact h rfl)

/-- Trailing carriage-return removal performed by `Csv::next`
(`if buf.ends_with(&[b'\r']) { buf.pop(); }`). -/
def trimCR (buf : List Nat) : List Nat :=
  if buf.getLast? = some 13 then buf.dropLast else buf

/-- One step of the row iterator (`<Csv as Iterator>::next` in src/lib.rs):
returns the produced item (`none` = iteration over) and the updated reader. -/
def Csv.next (s : Csv) : Option (Except Error Row) × Csv :=
  if s.exit then (none, s)
  else
    match read_line s.delimiter s.chunks false 0 [] [] with
    | .error e => (some (.error e), { s with exit := true })
    | .ok (read, buf, cols, chunks') =>
      if read = 0 then (none, { s with chunks := chunks' })
      else
        let buf' := trimCR buf
        let cols' := cols ++ [buf'.length]
        let c := cols'.length
        match s.len with
        | none => (some (.ok ⟨buf', cols'⟩), { s with len := some c, chunks := chunks' })
        | some n =>
          if n ≠ c ∧ s.flexible = false then
            (some (.error (.columnMismatch n c)), { s with chunks := chunks' })
          else
            (some (.ok ⟨buf', cols'⟩), { s with chunks := chunks' })

/-- Continuation-byte test for UTF-8 validation (0x80–0xBF). -/
def isCont (b : Nat) : Bool := 128 ≤ b && b ≤ 191

/-- Modelled from the spec: UTF-8 validity of the row bytes, as decided by
`str::from_utf8` in `Row::columns` (the Rust standard library's definition
of well-formed UTF-8: ASCII, C2–DF+1, E0 A0–BF+1, E1–EC 80–BF+1, ED 80–9F+1,
EE–EF 80–BF+1, F0 90–BF+2, F1–F3 80–BF+2, F4 80–8F+2). -/
def validUtf8 : List Nat → Bool
  | [] => true
  | b :: rest =>
    if b ≤ 127 then validUtf8 rest
    else if 194 ≤ b && b ≤ 223 then
      match rest with
      | c1 :: r => isCont c1 && validUtf8 r
      | [] => false
    else if b = 224 then
      match rest with
      | c1 :: c2 :: r => (160 ≤ c1 && c1 ≤ 191) && isCont c2 && validUtf8 r
      | _ => false
    else if (225 ≤ b && b ≤ 236) || b = 238 || b = 239 then
      match rest with
      | c1 :: c2 :: r => isCont c1 && isCont c2 && validUtf8 r
      | _ => false
    else if b = 237 then
      match rest with
      | c1 :: c2 :: r => (128 ≤ c1 && c1 ≤ 159) && isCont c2 && validUtf8 r
      | _ => false
    else if b = 240 then
      match rest with
      | c1 :: c2 :: c3 :: r => (144 ≤ c1 && c1 ≤ 191) && isCont c2 && isCont c3 && validUtf8 r
      | _ => false
    else if 241 ≤ b && b ≤ 243 then
      match rest with
      | c1 :: c2 :: c3 :: r => isCont c1 && isCont c2 && isCont c3 && validUtf8 r
      | _ => false
    else if b = 244 then
      match rest with
      | c1 :: c2 :: c3 :: r => (128 ≤ c1 && c1 ≤ 143) && isCont c2 && isCont c3 && validUtf8 r
      | _ => false
    else false

/-- Modelled from the spec: the column slicing of the view in columns.rs
(not under src/) — the first column spans `[0, cols[0])` and the i-th spans
`[cols[i-1], cols[i])`.  Builds the (start, end) pairs. -/
def sliceRanges : Nat → List Nat → List (Nat × Nat)
  | _, [] => []
  | s, e :: rest => (s, e) :: sliceRanges e rest

/-- Modelled from the spec: the byte slices of the columns of a row. -/
def colSlices (line : List Nat) (cols : List Nat) : List (List Nat) :=
  (sliceRanges 0 cols).map (fun pr => (line.drop pr.1).take (pr.2 - pr.1))

/-- `Row::bytes_columns` of src/lib.rs: the raw byte view of the columns
(the slicing itself is modelled from the spec, columns.rs being absent). -/
def Row.bytes_columns (r : Row) : List (List Nat) := colSlices r.line r.cols

/-- `Row::columns` of src/lib.rs: validates the whole line as UTF-8 once and
exposes the text column view; on failure the InvalidData I/O error is
surfaced as the spec's InvalidEncoding kind (error.rs is absent). -/
def Row.columns (r : Row) : Except Error (List (List Nat)) :=
  if validUtf8 r.line then .ok (colSlices r.line r.cols) else .error .invalidEncoding

end QuickCsv

namespace QuickCsv

theorem scan_eq_nil (delim p : Nat) (prev : Option Nat) (m : Bool) :
    scan delim [] p prev m = .ok ([], .cont m) := rfl

theorem scan_eq_one_quote (delim p : Nat) (prev : Option Nat) :
    scan delim [34] p prev true = .ok ([], .cont false) := by simp [scan]

theorem scan_eq_one_other (delim b p : Nat) (prev : Option Nat) (hb : b ≠ 34) :
    scan delim [b] p prev true = .ok ([], .cont true) := by simp [scan, hb]

theorem scan_eq_escape (delim : Nat) (rest2 : List Nat) (p : Nat) (prev : Option Nat) :
    scan delim (34 :: 34 :: rest2) p prev true = scan delim rest2 (p+2) (some 34) true := by
  simp [scan]

theorem scan_eq_close (delim c : Nat) (rest2 : List Nat) (p : Nat) (prev : Option Nat)
    (hc : c ≠ 34) (hcl : c = 13 ∨ c = 10 ∨ c = delim) :
    scan delim (34 :: c :: rest2) p prev true = scan delim (c :: rest2) (p+1) (some 34) false := by
  simp [scan, hc, hcl]

theorem scan_eq_quote_err (delim c : Nat) (rest2 : List Nat) (p : Nat) (prev : Option Nat)
    (hc : c ≠ 34) (hncl : ¬(c = 13 ∨ c = 10 ∨ c = delim)) :
    scan delim (34 :: c :: rest2) p prev true = .error .unescapedQuote := by
  simp [scan, hc, hncl]

theorem scan_eq_quote_inert (delim b c : Nat) (rest2 : List Nat) (p : Nat) (prev : Option Nat)
    (hb : b ≠ 34) :
    scan delim (b :: c :: rest2) p prev true = scan delim (c :: rest2) (p+1) (some b) true := by
  simp [scan, hb]

theorem scan_eq_open (delim : Nat) (rest : List Nat) (p : Nat) (prev : Option Nat)
    (hcond : p = 0 ∨ prev = some delim) :
    scan delim (34 :: rest) p prev false = scan delim rest (p+1) (some 34) true := by
  cases rest with
  | nil => simp [scan, hcond]
  | cons c r => simp [scan, hcond]

theorem scan_eq_unexpected (delim : Nat) (rest : List Nat) (p : Nat) (prev : Option Nat)
    (hcond : ¬(p = 0 ∨ prev = some delim)) :
    scan delim (34 :: rest) p prev false = .error .unexpectedQuote := by
  simp [scan, hcond]

theorem scan_eq_newline (delim : Nat) (rest : List Nat) (p : Nat) (prev : Option Nat) :
    scan delim (10 :: rest) p prev false = .ok ([], .term p) := by simp [scan]

theorem scan_eq_delim (delim : Nat) (rest : List Nat) (p : Nat) (prev : Option Nat)
    (hd34 : delim ≠ 34) (hd10 : delim ≠ 10) :
    scan delim (delim :: rest) p prev false =
      (scan delim rest (p+1) (some delim) false).map (fun r => (p :: r.1, r.2)) := by
  cases h : scan delim rest (p+1) (some delim) false with
  | error e => simp [scan, hd34, hd10, h, Except.map]
  | ok r =>
    obtain ⟨cs, en⟩ := r
    simp [scan, hd34, hd10, h, Except.map]

theorem scan_eq_inert (delim b : Nat) (rest : List Nat) (p : Nat) (prev : Option Nat)
    (hb : b ≠ 34) (h10 : b ≠ 10) (hd : b ≠ delim) :
    scan delim (b :: rest) p prev false = scan delim rest (p+1) (some b) false := by
  simp [scan, hb, h10, hd]

theorem scan_error_kinds (delim : Nat) (l : List Nat) (p : Nat) (prev : Option Nat) (m : Bool) :
    ∀ e : Error, scan delim l p prev m = .error e →
      e = .unescapedQuote ∨ e = .unexpectedQuote := by
  induction l, p, prev, m using scan.induct delim <;>
    intro e he <;> simp_all [scan]

theorem scan_cols_spec (delim : Nat) (l : List Nat) (p0 : Nat) (prev : Option Nat) (m : Bool) :
    ∀ cs en, scan delim l p0 prev m = Except.ok (cs, en) →
      List.Pairwise (· < ·) cs ∧
      (∀ j ∈ cs, ∃ k, j = p0 + k ∧ l[k]? = some delim) ∧
      (∀ i, en = ChunkEnd.term i → (∃ k, i = p0 + k ∧ l[k]? = some 10) ∧ ∀ j ∈ cs, j < i) ∧
      (∀ q, en = ChunkEnd.cont q → ∀ j ∈ cs, j < p0 + l.length) := by
  induction l, p0, prev, m using scan.induct delim with
  | case1 x x1 inQ =>
    intro cs en he
    rw [scan_eq_nil] at he
    simp only [Except.ok.injEq, Prod.mk.injEq] at he
    obtain ⟨h1, h2⟩ := he
    subst h1; subst h2
    simp
  | case2 p prev =>
    intro cs en he
    rw [scan_eq_one_quote] at he
    simp only [Except.ok.injEq, Prod.mk.injEq] at he
    obtain ⟨h1, h2⟩ := he
    subst h1; subst h2
    simp
  | case3 b p prev hb =>
    intro cs en he
    rw [scan_eq_one_other delim b p prev hb] at he
    simp only [Except.ok.injEq, Prod.mk.injEq] at he
    obtain ⟨h1, h2⟩ := he
    subst h1; subst h2
    simp
  | case4 rest2 p prev ih =>
    intro cs en he
    rw [scan_eq_escape] at he
    obtain ⟨hpw, hmem, hterm, hcont⟩ := ih cs en he
    refine ⟨hpw, ?_, ?_, ?_⟩
    · intro j hj
      obtain ⟨k, hk, hg⟩ := hmem j hj
      exact ⟨k + 2, by omega, by simpa using hg⟩
    · intro i hi
      obtain ⟨⟨k, hk, hg⟩, hlt⟩ := hterm i hi
      exact ⟨⟨k + 2, by omega, by simpa using hg⟩, hlt⟩
    · intro q hq j hj
      have hh := hcont q hq j hj
      simp only [List.length_cons] at hh ⊢
      omega
  | case5 c rest2 p prev hc hcl ih =>
    intro cs en he
    rw [scan_eq_close delim c rest2 p prev hc hcl] at he
    obtain ⟨hpw, hmem, hterm, hcont⟩ := ih cs en he
    refine ⟨hpw, ?_, ?_, ?_⟩
    · intro j hj
      obtain ⟨k, hk, hg⟩ := hmem j hj
      exact ⟨k + 1, by omega, by simpa using hg⟩
    · intro i hi
      obtain ⟨⟨k, hk, hg⟩, hlt⟩ := hterm i hi
      exact ⟨⟨k + 1, by omega, by simpa using hg⟩, hlt⟩
    · intro q hq j hj
      have hh := hcont q hq j hj
      simp only [List.length_cons] at hh ⊢
      omega
  | case6 c rest2 p prev hc hncl =>
    intro cs en he
    rw [scan_eq_quote_err delim c rest2 p prev hc hncl] at he
    exact absurd he (by simp)
  | case7 b c rest2 p prev hb ih =>
    intro cs en he
    rw [scan_eq_quote_inert delim b c rest2 p prev hb] at he
    obtain ⟨hpw, hmem, hterm, hcont⟩ := ih cs en he
    refine ⟨hpw, ?_, ?_, ?_⟩
    · intro j hj
      obtain ⟨k, hk, hg⟩ := hmem j hj
      exact ⟨k + 1, by omega, by simpa using hg⟩
    · intro i hi
      obtain ⟨⟨k, hk, hg⟩, hlt⟩ := hterm i hi
      exact ⟨⟨k + 1, by omega, by simpa using hg⟩, hlt⟩
    · intro q hq j hj
      have hh := hcont q hq j hj
      simp only [List.length_cons] at hh ⊢
      omega
  | case8 rest p prev hcond ih =>
    intro cs en he
    rw [scan_eq_open delim rest p prev hcond] at he
    obtain ⟨hpw, hmem, hterm, hcont⟩ := ih cs en he
    refine ⟨hpw, ?_, ?_, ?_⟩
    · intro j hj
      obtain ⟨k, hk, hg⟩ := hmem j hj
      exact ⟨k + 1, by omega, by simpa using hg⟩
    · intro i hi
      obtain ⟨⟨k, hk, hg⟩, hlt⟩ := hterm i hi
      exact ⟨⟨k + 1, by omega, by simpa using hg⟩, hlt⟩
    · intro q hq j hj
      have hh := hcont q hq j hj
      simp only [List.length_cons] at hh ⊢
      omega
  | case9 rest p prev hcond =>
    intro cs en he
    rw [scan_eq_unexpected delim rest p prev hcond] at he
    exact absurd he (by simp)
  | case10 rest p prev h34 =>
    intro cs en he
    rw [scan_eq_newline] at he
    simp only [Except.ok.injEq, Prod.mk.injEq] at he
    obtain ⟨h1, h2⟩ := he
    subst h1; subst h2
    refine ⟨by simp, by simp, ?_, by simp⟩
    intro i hi
    have : p = i := by cases hi; rfl
    subst this
    exact ⟨⟨0, by omega, by simp⟩, by simp⟩
  | case11 rest p prev e hd34 hd10 hse ih =>
    intro cs en he
    rw [scan_eq_delim delim rest p prev hd34 hd10, hse] at he
    exact absurd he (by simp [Except.map])
  | case12 rest p prev cs0 en0 hd34 hd10 hso ih =>
    intro cs en he
    rw [scan_eq_delim delim rest p prev hd34 hd10, hso] at he
    simp only [Except.map, Except.ok.injEq, Prod.mk.injEq] at he
    obtain ⟨h1, h2⟩ := he
    subst h1; subst h2
    obtain ⟨hpw, hmem, hterm, hcont⟩ := ih cs0 en0 hso
    refine ⟨?_, ?_, ?_, ?_⟩
    · refine List.pairwise_cons.2 ⟨?_, hpw⟩
      intro j hj
      obtain ⟨k, hk, _⟩ := hmem j hj
      omega
    · intro j hj
      rcases List.mem_cons.1 hj with h | h
      · exact ⟨0, by omega, by simp [h]⟩
      · obtain ⟨k, hk, hg⟩ := hmem j h
        exact ⟨k + 1, by omega, by simpa using hg⟩
    · intro i hi
      obtain ⟨⟨k, hk, hg⟩, hlt⟩ := hterm i hi
      refine ⟨⟨k + 1, by omega, by simpa using hg⟩, ?_⟩
      intro j hj
      rcases List.mem_cons.1 hj with h | h
      · omega
      · exact hlt j h
    · intro q hq j hj
      rcases List.mem_cons.1 hj with h | h
      · simp only [List.length_cons]; omega
      · have hh := hcont q hq j h
        simp only [List.length_cons] at hh ⊢; omega
  | case13 b rest p prev hb h10 hd ih =>
    intro cs en he
    rw [scan_eq_inert delim b rest p prev hb h10 hd] at he
    obtain ⟨hpw, hmem, hterm, hcont⟩ := ih cs en he
    refine ⟨hpw, ?_, ?_, ?_⟩
    · intro j hj
      obtain ⟨k, hk, hg⟩ := hmem j hj
      exact ⟨k + 1, by omega, by simpa using hg⟩
    · intro i hi
      obtain ⟨⟨k, hk, hg⟩, hlt⟩ := hterm i hi
      exact ⟨⟨k + 1, by omega, by simpa using hg⟩, hlt⟩
    · intro q hq j hj
      have hh := hcont q hq j hj
      simp only [List.length_cons] at hh ⊢
      omega


theorem read_line_error_kinds (delim : Nat) (chunks : List (List Nat)) :
    ∀ inQ read buf cols e, read_line delim chunks inQ read buf cols = .error e →
      e = .unescapedQuote ∨ e = .unexpectedQuote := by
  induction chunks with
  | nil => intro inQ read buf cols e he; simp [read_line] at he
  | cons av rest ih =>
    intro inQ read buf cols e he
    by_cases hav : av = []
    · simp [read_line, hav] at he
    · simp only [read_line, if_neg hav] at he
      cases hs : scan delim av 0 none inQ with
      | error e0 =>
        rw [hs] at he
        simp only [Except.error.injEq] at he
        subst he
        exact scan_error_kinds delim av 0 none inQ e0 hs
      | ok r =>
        obtain ⟨cs, en⟩ := r
        rw [hs] at he
        cases en with
        | term i => simp at he
        | cont q => exact ih q _ _ _ e he

theorem cols_inv_append (delim read bound : Nat) (buf av cols cs : List Nat)
    (hread : read = buf.length)
    (hpw : List.Pairwise (· < ·) cols)
    (hmem : ∀ e ∈ cols, e < buf.length ∧ buf[e]? = some delim)
    (hcspw : List.Pairwise (· < ·) cs)
    (hcs : ∀ j ∈ cs, av[j]? = some delim ∧ j < bound) :
    List.Pairwise (· < ·) (cols ++ cs.map (fun j => read + j)) ∧
    (∀ e ∈ cols ++ cs.map (fun j => read + j),
       e < (buf ++ av.take bound).length ∧ (buf ++ av.take bound)[e]? = some delim) := by
  constructor
  · rw [List.pairwise_append]
    refine ⟨hpw, ?_, ?_⟩
    · rw [List.pairwise_map]
      exact hcspw.imp (fun h => by omega)
    · intro a ha b hb
      obtain ⟨j, hj, rfl⟩ := List.mem_map.1 hb
      have := (hmem a ha).1
      omega
  · intro e he
    rcases List.mem_append.1 he with h | h
    · obtain ⟨hlt, hget⟩ := hmem e h
      constructor
      · simp only [List.length_append]; omega
      · rw [List.getElem?_append_left (by omega)]
        exact hget
    · obtain ⟨j, hj, rfl⟩ := List.mem_map.1 h
      obtain ⟨hget, hjb⟩ := hcs j hj
      have hjlen : j < av.length := (List.getElem?_eq_some.1 hget).1
      constructor
      · simp only [List.length_append, List.length_take]
        omega
      · rw [List.getElem?_append_right (by omega)]
        have : read + j - buf.length = j := by omega
        rw [this, List.getElem?_take, if_pos hjb]
        exact hget

theorem read_line_inv (delim : Nat) (chunks : List (List Nat)) :
    ∀ inQ read buf cols r' buf' cols' ch',
      read_line delim chunks inQ read buf cols = .ok (r', buf', cols', ch') →
      read = buf.length →
      List.Pairwise (· < ·) cols →
      (∀ e ∈ cols, e < buf.length ∧ buf[e]? = some delim) →
      List.Pairwise (· < ·) cols' ∧
      (∀ e ∈ cols', e < buf'.length ∧ buf'[e]? = some delim) ∧
      (∃ app, buf' = buf ++ app ∧ app <+: chunks.flatten) := by
  induction chunks with
  | nil =>
    intro inQ read buf cols r' buf' cols' ch' he hread hpw hmem
    simp only [read_line, Except.ok.injEq, Prod.mk.injEq] at he
    obtain ⟨-, h2, h3, -⟩ := he
    subst h2; subst h3
    exact ⟨hpw, hmem, [], by simp, List.nil_prefix⟩
  | cons av rest ih =>
    intro inQ read buf cols r' buf' cols' ch' he hread hpw hmem
    by_cases hav : av = []
    · simp only [read_line, if_pos hav, Except.ok.injEq, Prod.mk.injEq] at he
      obtain ⟨-, h2, h3, -⟩ := he
      subst h2; subst h3
      exact ⟨hpw, hmem, [], by simp, List.nil_prefix⟩
    · simp only [read_line, if_neg hav] at he
      cases hs : scan delim av 0 none inQ with
      | error e0 => rw [hs] at he; simp at he
      | ok r =>
        obtain ⟨cs, en⟩ := r
        rw [hs] at he
        obtain ⟨hcspw, hcsmem, hterm, hcont⟩ := scan_cols_spec delim av 0 none inQ cs en hs
        cases en with
        | term i =>
          simp only [Except.ok.injEq, Prod.mk.injEq] at he
          obtain ⟨-, h2, h3, -⟩ := he
          subst h2; subst h3
          obtain ⟨hi, hcsi⟩ := hterm i rfl
          have hinv := cols_inv_append delim read i buf av cols cs hread hpw hmem hcspw ?_
          · refine ⟨hinv.1, hinv.2, av.take i, rfl, ?_⟩
            rw [List.flatten_cons]
            exact (List.take_prefix i av).trans (List.prefix_append av rest.flatten)
          · intro j hj
            obtain ⟨k, hk, hget⟩ := hcsmem j hj
            have hkj : k = j := by omega
            rw [hkj] at hget
            exact ⟨hget, hcsi j hj⟩
        | cont q =>
          have hinv := cols_inv_append delim read av.length buf av cols cs hread hpw hmem hcspw ?_
          · rw [List.take_length] at hinv
            obtain ⟨hpw2, hmem2, happ⟩ := ih q (read + av.length) (buf ++ av)
              (cols ++ cs.map (fun j => read + j)) r' buf' cols' ch' he
              (by simp [hread]) hinv.1 hinv.2
            obtain ⟨app2, happ2, hpre⟩ := happ
            refine ⟨hpw2, hmem2, av ++ app2, by simp [happ2], ?_⟩
            rw [List.flatten_cons]
            exact (List.prefix_append_right_inj av).mpr hpre
          · intro j hj
            obtain ⟨k, hk, hget⟩ := hcsmem j hj
            have hkj : k = j := by omega
            rw [hkj] at hget
            refine ⟨hget, ?_⟩
            have := hcont q rfl j hj
            omega


/-- Claim C6 (amended: provided the configured delimiter is not the
carriage-return byte 13): for every Row returned successfully by next(), the
cols offset list is non-empty, strictly increasing, its last element equals
line.len(), and cols.len() equals Row::len(). -/
theorem C6_row_invariant (s : Csv) (row : Row) (s' : Csv)
    (hd : s.delimiter ≠ 13)
    (he : Csv.next s = (some (.ok row), s')) :
    row.cols ≠ [] ∧ List.Pairwise (· < ·) row.cols ∧
      row.cols.getLast? = some row.line.length ∧ Row.len row = row.cols.length := by
  by_cases hex : s.exit
  · simp [Csv.next, hex] at he
  · simp only [Csv.next, if_neg hex] at he
    cases hrl : read_line s.delimiter s.chunks false 0 [] [] with
    | error e => rw [hrl] at he; simp at he
    | ok r =>
      obtain ⟨read, buf, cols, ch'⟩ := r
      rw [hrl] at he
      by_cases hr0 : read = 0
      · simp [hr0] at he
      · simp only [if_neg hr0] at he
        obtain ⟨hpw, hmem, -⟩ := read_line_inv s.delimiter s.chunks false 0 [] [] read buf cols ch'
          hrl rfl (by simp) (by simp)
        have hrow : row = ⟨trimCR buf, cols ++ [(trimCR buf).length]⟩ := by
          cases hlen : s.len with
          | none => simp only [hlen] at he; simp at he; exact he.1.symm
          | some n =>
            simp only [hlen] at he
            by_cases hmis : n ≠ (cols ++ [(trimCR buf).length]).length ∧ s.flexible = false
            · rw [if_pos hmis] at he; simp at he
            · rw [if_neg hmis] at he; simp at he; exact he.1.symm
        have hmem' : ∀ e ∈ cols, e < (trimCR buf).length := by
          intro e hecols
          obtain ⟨hlt, hget⟩ := hmem e hecols
          unfold trimCR
          by_cases h13 : buf.getLast? = some 13
          · rw [if_pos h13]
            rw [List.getLast?_eq_getElem?] at h13
            have hne : e ≠ buf.length - 1 := by
              intro heq
              rw [heq, h13] at hget
              refine hd ?_
              injection hget with hv
              exact hv.symm
            rw [List.length_dropLast]
            omega
          · rw [if_neg h13]; exact hlt
        subst hrow
        refine ⟨by simp, ?_, by simp [List.getLast?_concat], rfl⟩
        rw [List.pairwise_append]
        exact ⟨hpw, by simp, by simpa using hmem'⟩

/-- Claim C6 counterexample: with delimiter set to the carriage-return byte,
the input bytes a CR CR LF yield a successful row whose cols list [1, 2, 2]
is not strictly increasing, refuting the claim as stated. -/
theorem C6_counterexample_cr_delim :
    Csv.next ⟨13, false, none, false, [[97, 13, 13, 10]]⟩
      = (some (.ok ⟨[97, 13], [1, 2, 2]⟩), ⟨13, false, some 3, false, []⟩) ∧
    ¬ List.Pairwise (· < ·) ([1, 2, 2] : List Nat) := by
  constructor
  · rfl
  · decide

/-- Claim C6 witness: the row invariant applied to the row produced from
input a,b LF. -/
theorem C6_witness_app :
    (⟨44, false, none, false, [[97, 44, 98, 10]]⟩ : Csv).delimiter ≠ 13 ∧
    ([1, 3] : List Nat) ≠ [] ∧ List.Pairwise (· < ·) ([1, 3] : List Nat) ∧
      ([1, 3] : List Nat).getLast? = some ([97, 44, 98] : List Nat).length ∧
      Row.len ⟨[97, 44, 98], [1, 3]⟩ = ([1, 3] : List Nat).length := by
  refine ⟨by decide, ?_⟩
  exact C6_row_invariant ⟨44, false, none, false, [[97, 44, 98, 10]]⟩ ⟨[97, 44, 98], [1, 3]⟩
    ⟨44, false, some 2, false, []⟩ (by decide) rfl


theorem scan_append_term (delim : Nat) (l : List Nat) (p : Nat) (prev : Option Nat) (m : Bool)
    (hd : delim ≠ 13) :
    ∀ cs, scan delim l p prev m = .ok (cs, .cont false) →
      (∃ i, scan delim (l ++ [13, 10]) p prev m = .ok (cs, .term i) ∧ i = p + l.length + 1) ∧
      (∃ i, scan delim (l ++ [10]) p prev m = .ok (cs, .term i) ∧ i = p + l.length) := by
  induction l, p, prev, m using scan.induct delim with
  | case1 p prev inQ =>
    intro cs he
    rw [scan_eq_nil] at he
    simp only [Except.ok.injEq, Prod.mk.injEq, ChunkEnd.cont.injEq] at he
    obtain ⟨h1, h2⟩ := he
    subst h1; subst h2
    constructor
    · refine ⟨p + 1, ?_, by simp⟩
      rw [List.nil_append, scan_eq_inert delim 13 [10] p prev (by decide) (by decide)
        (fun h => hd h.symm), scan_eq_newline]
    · refine ⟨p, ?_, by simp⟩
      rw [List.nil_append, scan_eq_newline]
  | case2 p prev =>
    intro cs he
    rw [scan_eq_one_quote] at he
    simp only [Except.ok.injEq, Prod.mk.injEq] at he
    obtain ⟨h1, -⟩ := he
    subst h1
    constructor
    · refine ⟨p + 2, ?_, by simp⟩
      rw [List.cons_append, List.nil_append,
        scan_eq_close delim 13 [10] p prev (by decide) (by left; rfl),
        scan_eq_inert delim 13 [10] (p+1) (some 34) (by decide) (by decide) (fun h => hd h.symm),
        scan_eq_newline]
    · refine ⟨p + 1, ?_, by simp⟩
      rw [List.cons_append, List.nil_append,
        scan_eq_close delim 10 [] p prev (by decide) (by right; left; rfl),
        scan_eq_newline]
  | case3 b p prev hb =>
    intro cs he
    rw [scan_eq_one_other delim b p prev hb] at he
    simp at he
  | case4 rest2 p prev ih =>
    intro cs he
    rw [scan_eq_escape] at he
    obtain ⟨⟨i1, hX, hi1⟩, ⟨i2, hY, hi2⟩⟩ := ih cs he
    constructor
    · refine ⟨i1, ?_, by simp only [List.length_cons]; omega⟩
      rw [List.cons_append, List.cons_append, scan_eq_escape]
      exact hX
    · refine ⟨i2, ?_, by simp only [List.length_cons]; omega⟩
      rw [List.cons_append, List.cons_append, scan_eq_escape]
      exact hY
  | case5 c rest2 p prev hc hcl ih =>
    intro cs he
    rw [scan_eq_close delim c rest2 p prev hc hcl] at he
    obtain ⟨⟨i1, hX, hi1⟩, ⟨i2, hY, hi2⟩⟩ := ih cs he
    constructor
    · refine ⟨i1, ?_, by simp only [List.length_cons] at hi1 ⊢; omega⟩
      rw [List.cons_append, List.cons_append,
        scan_eq_close delim c (rest2 ++ [13, 10]) p prev hc hcl]
      rw [List.cons_append] at hX
      exact hX
    · refine ⟨i2, ?_, by simp only [List.length_cons] at hi2 ⊢; omega⟩
      rw [List.cons_append, List.cons_append,
        scan_eq_close delim c (rest2 ++ [10]) p prev hc hcl]
      rw [List.cons_append] at hY
      exact hY
  | case6 c rest2 p prev hc hncl =>
    intro cs he
    rw [scan_eq_quote_err delim c rest2 p prev hc hncl] at he
    simp at he
  | case7 b c rest2 p prev hb ih =>
    intro cs he
    rw [scan_eq_quote_inert delim b c rest2 p prev hb] at he
    obtain ⟨⟨i1, hX, hi1⟩, ⟨i2, hY, hi2⟩⟩ := ih cs he
    constructor
    · refine ⟨i1, ?_, by simp only [List.length_cons] at hi1 ⊢; omega⟩
      rw [List.cons_append, List.cons_append,
        scan_eq_quote_inert delim b c (rest2 ++ [13, 10]) p prev hb]
      rw [List.cons_append] at hX
      exact hX
    · refine ⟨i2, ?_, by simp only [List.length_cons] at hi2 ⊢; omega⟩
      rw [List.cons_append, List.cons_append,
        scan_eq_quote_inert delim b c (rest2 ++ [10]) p prev hb]
      rw [List.cons_append] at hY
      exact hY
  | case8 rest p prev hcond ih =>
    intro cs he
    rw [scan_eq_open delim rest p prev hcond] at he
    obtain ⟨⟨i1, hX, hi1⟩, ⟨i2, hY, hi2⟩⟩ := ih cs he
    constructor
    · refine ⟨i1, ?_, by simp only [List.length_cons] at hi1 ⊢; omega⟩
      rw [List.cons_append, scan_eq_open delim (rest ++ [13, 10]) p prev hcond]
      exact hX
    · refine ⟨i2, ?_, by simp only [List.length_cons] at hi2 ⊢; omega⟩
      rw [List.cons_append, scan_eq_open delim (rest ++ [10]) p prev hcond]
      exact hY
  | case9 rest p prev hcond =>
    intro cs he
    rw [scan_eq_unexpected delim rest p prev hcond] at he
    simp at he
  | case10 rest p prev h34 =>
    intro cs he
    rw [scan_eq_newline] at he
    simp at he
  | case11 rest p prev e hd34 hd10 hse ih =>
    intro cs he
    rw [scan_eq_delim delim rest p prev hd34 hd10, hse] at he
    simp [Except.map] at he
  | case12 rest p prev cs0 en0 hd34 hd10 hso ih =>
    intro cs he
    rw [scan_eq_delim delim rest p prev hd34 hd10, hso] at he
    simp only [Except.map, Except.ok.injEq, Prod.mk.injEq] at he
    obtain ⟨h1, h2⟩ := he
    subst h1
    obtain ⟨⟨i1, hX, hi1⟩, ⟨i2, hY, hi2⟩⟩ := ih cs0 (by rw [hso, ← h2])
    constructor
    · refine ⟨i1, ?_, by simp only [List.length_cons] at hi1 ⊢; omega⟩
      rw [List.cons_append, scan_eq_delim delim (rest ++ [13, 10]) p prev hd34 hd10, hX]
      simp [Except.map]
    · refine ⟨i2, ?_, by simp only [List.length_cons] at hi2 ⊢; omega⟩
      rw [List.cons_append, scan_eq_delim delim (rest ++ [10]) p prev hd34 hd10, hY]
      simp [Except.map]
  | case13 b rest p prev hb h10 hdne ih =>
    intro cs he
    rw [scan_eq_inert delim b rest p prev hb h10 hdne] at he
    obtain ⟨⟨i1, hX, hi1⟩, ⟨i2, hY, hi2⟩⟩ := ih cs he
    constructor
    · refine ⟨i1, ?_, by simp only [List.length_cons] at hi1 ⊢; omega⟩
      rw [List.cons_append, scan_eq_inert delim b (rest ++ [13, 10]) p prev hb h10 hdne]
      exact hX
    · refine ⟨i2, ?_, by simp only [List.length_cons] at hi2 ⊢; omega⟩
      rw [List.cons_append, scan_eq_inert delim b (rest ++ [10]) p prev hb h10 hdne]
      exact hY


/-- Claim C7 (amended): for a record body whose scan leaves the quote state
closed and that does not end in a carriage-return byte, with a delimiter
other than CR, terminating the body with CRLF or with LF yields identical
next() results. -/
theorem C7_crlf (delim : Nat) (flex : Bool) (len0 : Option Nat) (B cs : List Nat)
    (hd : delim ≠ 13)
    (hscan : scan delim B 0 none false = .ok (cs, .cont false))
    (hlast : B.getLast? ≠ some 13) :
    (Csv.next ⟨delim, flex, len0, false, [B ++ [13, 10]]⟩).1 =
      (Csv.next ⟨delim, flex, len0, false, [B ++ [10]]⟩).1 := by
  obtain ⟨⟨i1, hX, hi1⟩, ⟨i2, hY, hi2⟩⟩ := scan_append_term delim B 0 none false hd cs hscan
  subst hi1; subst hi2
  have hne1 : B ++ [13, 10] ≠ [] := by simp
  have hne2 : B ++ [10] ≠ [] := by simp
  have htake1 : (B ++ [13, 10]).take (0 + B.length + 1) = B ++ [13] := by
    rw [Nat.zero_add, List.take_append 1]
    rfl
  have hdrop1 : (B ++ [13, 10]).drop (0 + B.length + 1 + 1) = [] := by
    rw [Nat.zero_add, show B.length + 1 + 1 = B.length + 2 from rfl, List.drop_append 2]
    rfl
  have htake2 : (B ++ [10]).take (0 + B.length) = B := by
    rw [Nat.zero_add]
    exact List.take_left B [10]
  have hdrop2 : (B ++ [10]).drop (0 + B.length + 1) = [] := by
    rw [Nat.zero_add, List.drop_append 1]
    rfl
  have hrl1 : read_line delim [B ++ [13, 10]] false 0 [] [] =
      .ok (0 + (0 + B.length + 1) + 1, B ++ [13], cs.map (fun j => 0 + j), []) := by
    simp only [read_line, if_neg hne1, hX, htake1, hdrop1, List.nil_append]
    simp
  have hrl2 : read_line delim [B ++ [10]] false 0 [] [] =
      .ok (0 + (0 + B.length) + 1, B, cs.map (fun j => 0 + j), []) := by
    simp only [read_line, if_neg hne2, hY, htake2, hdrop2, List.nil_append]
    simp
  have htrim1 : trimCR (B ++ [13]) = B := by
    unfold trimCR
    rw [if_pos (List.getLast?_concat B), List.dropLast_concat]
  have htrim2 : trimCR B = B := by
    unfold trimCR
    rw [if_neg hlast]
  simp only [Csv.next, if_neg (by simp : ¬(false = true)), hrl1, hrl2, htrim1, htrim2,
    if_neg (by omega : ¬(0 + (0 + B.length + 1) + 1 = 0)),
    if_neg (by omega : ¬(0 + (0 + B.length) + 1 = 0))]


theorem sliceRanges_length (s : Nat) (cols : List Nat) :
    (sliceRanges s cols).length = cols.length := by
  induction cols generalizing s with
  | nil => rfl
  | cons e rest ih => simp [sliceRanges, ih]

/-- Claim C1 (code bug): chunk-boundary invariance fails.  The same bytes
(a b quote c LF, comma delimiter) produce an UnexpectedQuote error when
delivered as one chunk but a successful row when split into the chunks
[a b] and [quote c LF]: the quote look-ahead and the field-start test cannot
see across a chunk boundary, so results depend on how input is chunked. -/
theorem C1_chunk_boundary_divergence :
    (Csv.next ⟨44, false, none, false, [[97, 98, 34, 99, 10]]⟩).1
        = some (.error .unexpectedQuote) ∧
    (Csv.next ⟨44, false, none, false, [[97, 98], [34, 99, 10]]⟩).1
        = some (.ok ⟨[97, 98, 34, 99, 10], [5]⟩) ∧
    (Csv.next ⟨44, false, none, false, [[97, 98, 34, 99, 10]]⟩).1
        ≠ (Csv.next ⟨44, false, none, false, [[97, 98], [34, 99, 10]]⟩).1 := by
  refine ⟨rfl, rfl, ?_⟩
  decide

/-- Claim C2 (amended): after a ColumnMismatch error the reader is NOT in a
terminal state — exit and the learned column count are unchanged and later
next() calls keep producing rows; exit is set to true exactly by errors
propagated out of read_line, and once exit is set next() returns none. -/
theorem C2_mismatch_not_terminal :
    (∀ s n c s', Csv.next s = (some (.error (.columnMismatch n c)), s') →
        s'.exit = s.exit ∧ s'.len = s.len) ∧
    (∀ s : Csv, s.exit = true → Csv.next s = (none, s)) ∧
    (∀ (s : Csv) e s', Csv.next s = (some (.error e), s') →
        (∀ n c, e ≠ .columnMismatch n c) → s'.exit = true) := by
  refine ⟨?_, ?_, ?_⟩
  · intro s n c s' he
    by_cases hex : s.exit
    · simp [Csv.next, hex] at he
    · simp only [Csv.next, if_neg hex] at he
      cases hrl : read_line s.delimiter s.chunks false 0 [] [] with
      | error e0 =>
        rw [hrl] at he
        simp only [Prod.mk.injEq, Option.some.injEq, Except.error.injEq] at he
        rcases read_line_error_kinds s.delimiter s.chunks false 0 [] [] e0 hrl with h | h <;>
          rw [h] at he <;> exact absurd he.1 (by simp)
      | ok r =>
        obtain ⟨read, buf, cols, ch'⟩ := r
        rw [hrl] at he
        by_cases hr0 : read = 0
        · simp [hr0] at he
        · simp only [if_neg hr0] at he
          cases hlen : s.len with
          | none => simp only [hlen] at he; simp at he
          | some n0 =>
            simp only [hlen] at he
            by_cases hmis : n0 ≠ (cols ++ [(trimCR buf).length]).length ∧ s.flexible = false
            · rw [if_pos hmis] at he
              simp only [Prod.mk.injEq, Option.some.injEq] at he
              rw [← he.2]
              exact ⟨rfl, rfl⟩
            · rw [if_neg hmis] at he
              simp at he
  · intro s hex
    simp [Csv.next, hex]
  · intro s e s' he hnm
    by_cases hex : s.exit
    · simp [Csv.next, hex] at he
    · simp only [Csv.next, if_neg hex] at he
      cases hrl : read_line s.delimiter s.chunks false 0 [] [] with
      | error e0 =>
        rw [hrl] at he
        simp only [Prod.mk.injEq, Option.some.injEq] at he
        rw [← he.2]
      | ok r =>
        obtain ⟨read, buf, cols, ch'⟩ := r
        rw [hrl] at he
        by_cases hr0 : read = 0
        · simp [hr0] at he
        · simp only [if_neg hr0] at he
          cases hlen : s.len with
          | none => simp only [hlen] at he; simp at he
          | some n0 =>
            simp only [hlen] at he
            by_cases hmis : n0 ≠ (cols ++ [(trimCR buf).length]).length ∧ s.flexible = false
            · rw [if_pos hmis] at he
              simp only [Prod.mk.injEq, Option.some.injEq, Except.error.injEq] at he
              exact absurd he.1.symm (hnm n0 (cols ++ [(trimCR buf).length]).length)
            · rw [if_neg hmis] at he
              simp at he

/-- Claim C2 counterexample: on input a,b LF c LF d,e LF the second call
fails with ColumnMismatch(2, 1) and the third call still yields the row
d,e — the reader skips and continues instead of terminating. -/
theorem C2_counterexample_skip :
    (Csv.next (Csv.next (⟨44, false, none, false,
        [[97, 44, 98, 10, 99, 10, 100, 44, 101, 10]]⟩ : Csv)).2).1
      = some (.error (.columnMismatch 2 1)) ∧
    (Csv.next (Csv.next (Csv.next (⟨44, false, none, false,
        [[97, 44, 98, 10, 99, 10, 100, 44, 101, 10]]⟩ : Csv)).2).2).1
      = some (.ok ⟨[100, 44, 101], [1, 3]⟩) ∧
    (Csv.next (Csv.next (Csv.next (⟨44, false, none, false,
        [[97, 44, 98, 10, 99, 10, 100, 44, 101, 10]]⟩ : Csv)).2).2).1 ≠ none :=
  ⟨rfl, rfl, by decide⟩

/-- Claim C2 witness: the amended theorem applied to a reader whose next
call produces ColumnMismatch(2, 1). -/
theorem C2_witness_app :
    ((Csv.next (⟨44, false, some 2, false, [[99, 10]]⟩ : Csv)).2).exit
        = (⟨44, false, some 2, false, [[99, 10]]⟩ : Csv).exit ∧
    ((Csv.next (⟨44, false, some 2, false, [[99, 10]]⟩ : Csv)).2).len
        = (⟨44, false, some 2, false, [[99, 10]]⟩ : Csv).len :=
  C2_mismatch_not_terminal.1 ⟨44, false, some 2, false, [[99, 10]]⟩ 2 1
    ((Csv.next (⟨44, false, some 2, false, [[99, 10]]⟩ : Csv)).2) rfl

/-- Claim C3: the first successfully assembled row sets expected_columns to
its column count; once expected_columns is set and a row of c columns is
assembled, next() yields ColumnMismatch(expected, c) exactly when c differs
and flexible is off; and expected_columns is never updated afterwards. -/
theorem C3_schema_contract :
    (∀ s row s', s.len = none → Csv.next s = (some (.ok row), s') →
        s'.len = some (Row.len row)) ∧
    (∀ (s : Csv) (n read : Nat) (buf cols : List Nat) ch',
        s.exit = false → s.len = some n →
        read_line s.delimiter s.chunks false 0 [] [] = .ok (read, buf, cols, ch') →
        read ≠ 0 →
        ((Csv.next s).1 = some (.error (.columnMismatch n (cols.length + 1))) ↔
          (n ≠ cols.length + 1 ∧ s.flexible = false))) ∧
    (∀ s : Csv, s.len.isSome → ((Csv.next s).2).len = s.len) := by
  refine ⟨?_, ?_, ?_⟩
  · intro s row s' hlen he
    by_cases hex : s.exit
    · simp [Csv.next, hex] at he
    · simp only [Csv.next, if_neg hex] at he
      cases hrl : read_line s.delimiter s.chunks false 0 [] [] with
      | error e0 => rw [hrl] at he; simp at he
      | ok r =>
        obtain ⟨read, buf, cols, ch'⟩ := r
        rw [hrl] at he
        by_cases hr0 : read = 0
        · simp [hr0] at he
        · simp only [if_neg hr0, hlen] at he
          simp only [Prod.mk.injEq, Option.some.injEq, Except.ok.injEq] at he
          rw [← he.2, ← he.1]
          simp [Row.len]
  · intro s n read buf cols ch' hex hlen hrl hr0
    simp only [Csv.next, if_neg (by rw [hex]; simp : ¬s.exit = true), hrl, if_neg hr0, hlen]
    have hc : (cols ++ [(trimCR buf).length]).length = cols.length + 1 := by simp
    by_cases hmis : n ≠ (cols ++ [(trimCR buf).length]).length ∧ s.flexible = false
    · rw [if_pos hmis]
      simp only [hc] at hmis
      simp [hc, hmis]
    · rw [if_neg hmis]
      simp only [hc] at hmis
      simp [hmis]
  · intro s hsome
    by_cases hex : s.exit
    · simp [Csv.next, hex]
    · simp only [Csv.next, if_neg hex]
      cases hrl : read_line s.delimiter s.chunks false 0 [] [] with
      | error e0 => simp
      | ok r =>
        obtain ⟨read, buf, cols, ch'⟩ := r
        by_cases hr0 : read = 0
        · simp [hr0]
        · simp only [if_neg hr0]
          cases hlen : s.len with
          | none => rw [hlen] at hsome; simp at hsome
          | some n0 =>
            split
            · rename_i heq
              exact absurd heq (by simp)
            · split <;> rfl

/-- Claim C3 witness: the schema-contract theorem applied at concrete inputs. -/
theorem C3_witness_app :
    ((Csv.next (⟨44, false, none, false, [[97, 44, 98, 10]]⟩ : Csv)).2).len
        = some (Row.len ⟨[97, 44, 98], [1, 3]⟩) ∧
    ((Csv.next (⟨44, false, some 2, false, [[99, 10]]⟩ : Csv)).1
        = some (.error (.columnMismatch 2 (([] : List Nat).length + 1))) ↔
      (2 ≠ ([] : List Nat).length + 1 ∧
        (⟨44, false, some 2, false, [[99, 10]]⟩ : Csv).flexible = false)) ∧
    ((Csv.next (⟨44, false, some 2, false, [[99, 10]]⟩ : Csv)).2).len
        = (⟨44, false, some 2, false, [[99, 10]]⟩ : Csv).len := by
  refine ⟨?_, ?_, ?_⟩
  · exact C3_schema_contract.1 ⟨44, false, none, false, [[97, 44, 98, 10]]⟩
      ⟨[97, 44, 98], [1, 3]⟩ ⟨44, false, some 2, false, []⟩ rfl rfl
  · exact C3_schema_contract.2.1 ⟨44, false, some 2, false, [[99, 10]]⟩ 2 2 [99] [] []
      rfl rfl rfl (by decide)
  · exact C3_schema_contract.2.2 ⟨44, false, some 2, false, [[99, 10]]⟩ (by decide)

/-- Claim C4 (amended): the line buffer of every successfully produced Row
is a verbatim prefix of the raw input byte stream (terminator and trailing
CR removed) — quote characters and doubled escape pairs are kept as-is, so
no unescaping happens at row-assembly time. -/
theorem C4_line_verbatim (s : Csv) (row : Row) (s' : Csv)
    (he : Csv.next s = (some (.ok row), s')) :
    row.line <+: s.chunks.flatten := by
  by_cases hex : s.exit
  · simp [Csv.next, hex] at he
  · simp only [Csv.next, if_neg hex] at he
    cases hrl : read_line s.delimiter s.chunks false 0 [] [] with
    | error e0 => rw [hrl] at he; simp at he
    | ok r =>
      obtain ⟨read, buf, cols, ch'⟩ := r
      rw [hrl] at he
      by_cases hr0 : read = 0
      · simp [hr0] at he
      · simp only [if_neg hr0] at he
        obtain ⟨-, -, app, happ, hpre⟩ := read_line_inv s.delimiter s.chunks false 0 [] []
          read buf cols ch' hrl rfl (by simp) (by simp)
        have hbuf : buf = app := by simpa using happ
        have hline : row.line = trimCR buf := by
          cases hlen : s.len with
          | none => simp only [hlen] at he; simp at he; rw [← he.1]
          | some n0 =>
            simp only [hlen] at he
            by_cases hmis : n0 ≠ (cols ++ [(trimCR buf).length]).length ∧ s.flexible = false
            · rw [if_pos hmis] at he; simp at he
            · rw [if_neg hmis] at he
              simp only [Prod.mk.injEq, Option.some.injEq, Except.ok.injEq] at he
              rw [← he.1]
        have htp : trimCR buf <+: buf := by
          unfold trimCR
          by_cases h13 : buf.getLast? = some 13
          · rw [if_pos h13]; exact List.dropLast_prefix buf
          · rw [if_neg h13]
        rw [hline, hbuf] at *
        exact htp.trans hpre

/-- Claim C4 counterexample: for the escaped-quote input a,"b""c",d LF the
row's line buffer keeps the quotes and the doubled quote pair verbatim and
differs from the unescaped form a,b"c,d the claim describes. -/
theorem C4_counterexample_escaped :
    Csv.next ⟨44, false, none, false, [[97, 44, 34, 98, 34, 34, 99, 34, 44, 100, 10]]⟩
      = (some (.ok ⟨[97, 44, 34, 98, 34, 34, 99, 34, 44, 100], [1, 8, 10]⟩),
         ⟨44, false, some 3, false, []⟩) ∧
    ([97, 44, 34, 98, 34, 34, 99, 34, 44, 100] : List Nat) ≠ [97, 44, 98, 34, 99, 44, 100] :=
  ⟨rfl, by decide⟩

/-- Claim C4 witness: the verbatim-prefix theorem applied to the
escaped-quote input. -/
theorem C4_witness_app :
    ([97, 44, 34, 98, 34, 34, 99, 34, 44, 100] : List Nat) <+:
      ([[97, 44, 34, 98, 34, 34, 99, 34, 44, 100, 10]] : List (List Nat)).flatten :=
  C4_line_verbatim ⟨44, false, none, false, [[97, 44, 34, 98, 34, 34, 99, 34, 44, 100, 10]]⟩
    ⟨[97, 44, 34, 98, 34, 34, 99, 34, 44, 100], [1, 8, 10]⟩
    ⟨44, false, some 3, false, []⟩ rfl

/-- Claim C5 (amended): in quote mode a bare non-doubled quote followed by
end-of-chunk, the delimiter, the line feed, or a carriage return closes the
quoted span and scanning resumes in normal mode from the following byte; a
bare quote followed by any other byte fails with UnescapedQuote. -/
theorem C5_quote_close_or_fail (delim : Nat) (rest : List Nat) (p : Nat) (prev : Option Nat) :
    ((rest = [] ∨ ∃ c rest2, rest = c :: rest2 ∧ c ≠ 34 ∧ (c = 13 ∨ c = 10 ∨ c = delim)) →
      scan delim (34 :: rest) p prev true = scan delim rest (p+1) (some 34) false) ∧
    (∀ c rest2, rest = c :: rest2 → c ≠ 34 → c ≠ delim → c ≠ 10 → c ≠ 13 →
      scan delim (34 :: rest) p prev true = .error .unescapedQuote) := by
  constructor
  · rintro (rfl | ⟨c, rest2, rfl, hc, hcl⟩)
    · rw [scan_eq_one_quote, scan_eq_nil]
    · exact scan_eq_close delim c rest2 p prev hc hcl
  · rintro c rest2 rfl hc hcd hc10 hc13
    exact scan_eq_quote_err delim c rest2 p prev hc (by simp [hc13, hc10, hcd])

/-- Claim C5 counterexample: a quote followed by carriage return closes the
quote instead of failing — input quote a quote CR LF yields a successful
row, not the UnescapedQuote error the claim predicts. -/
theorem C5_counterexample_cr :
    Csv.next ⟨44, false, none, false, [[34, 97, 34, 13, 10]]⟩
      = (some (.ok ⟨[34, 97, 34], [3]⟩), ⟨44, false, some 1, false, []⟩) ∧
    scan 44 [34, 97, 34, 13, 10] 0 none false = .ok ([], .term 4) ∧
    (Csv.next ⟨44, false, none, false, [[34, 97, 34, 13, 10]]⟩).1
      ≠ some (.error .unescapedQuote) :=
  ⟨rfl, rfl, by decide⟩

/-- Claim C5 witness: the quote-consumption theorem applied with a
delimiter byte and with a plain byte after the closing quote. -/
theorem C5_witness_app :
    scan 44 (34 :: [44, 98]) 5 (some 97) true = scan 44 [44, 98] 6 (some 34) false ∧
    scan 44 (34 :: [120, 98]) 5 (some 97) true = .error .unescapedQuote :=
  ⟨(C5_quote_close_or_fail 44 [44, 98] 5 (some 97)).1
      (Or.inr ⟨44, [98], rfl, by decide, by decide⟩),
   (C5_quote_close_or_fail 44 [120, 98] 5 (some 97)).2 120 [98] rfl
      (by decide) (by decide) (by decide) (by decide)⟩

/-- Helper for claim C8: after a successful read that exhausts the source
(read_line leaves no chunks), the updated reader still has exit unset and an
empty source, whatever the schema outcome was. -/
theorem next_state_of_consumed (s : Csv) (read : Nat) (buf cols : List Nat)
    (hex : s.exit = false)
    (hrl : read_line s.delimiter s.chunks false 0 [] [] = .ok (read, buf, cols, [])) :
    ((Csv.next s).2).exit = false ∧ ((Csv.next s).2).chunks = [] := by
  have hex' : ¬s.exit = true := by rw [hex]; simp
  simp only [Csv.next, if_neg hex', hrl]
  by_cases hr0 : read = 0
  · simp [hr0, hex]
  · simp only [if_neg hr0]
    cases hlen : s.len with
    | none => simp [hex]
    | some n =>
      split
      · rename_i heq
        exact absurd heq (by simp)
      · constructor <;> split <;> simp [hex]

/-- Helper for claim C8: a reader with exit unset and an exhausted source
produces no further item. -/
theorem next_nil_none (t : Csv) (hex : t.exit = false) (hch : t.chunks = []) :
    (Csv.next t).1 = none := by
  simp [Csv.next, hex, hch, read_line]

/-- Claim C8 (amended): reaching end-of-stream while mid-record without a
terminator is not an error at the scanning level — read_line returns Ok and
the accumulated bytes are assembled into a final record that is submitted to
the ordinary column-count check.  When the schema check passes (no learned
count yet, flexible mode, or a matching count) this yields one final
complete Row, after which next() returns none; when a learned count differs
non-flexibly, the final record yields ColumnMismatch instead of a Row, and
next() thereafter returns none as well. -/
theorem C8_eof_final_row (s : Csv) (read : Nat) (buf cols : List Nat)
    (hex : s.exit = false)
    (hrl : read_line s.delimiter s.chunks false 0 [] [] = .ok (read, buf, cols, []))
    (hr0 : read ≠ 0) :
    ((s.len = none ∨ s.flexible = true ∨ s.len = some (cols.length + 1)) →
      (Csv.next s).1 = some (.ok ⟨trimCR buf, cols ++ [(trimCR buf).length]⟩) ∧
      (Csv.next (Csv.next s).2).1 = none) ∧
    (∀ n, s.len = some n → n ≠ cols.length + 1 → s.flexible = false →
      (Csv.next s).1 = some (.error (.columnMismatch n (cols.length + 1))) ∧
      (Csv.next (Csv.next s).2).1 = none) := by
  have hex' : ¬s.exit = true := by rw [hex]; simp
  have hc : (cols ++ [(trimCR buf).length]).length = cols.length + 1 := by simp
  have hst := next_state_of_consumed s read buf cols hex hrl
  have hnone : (Csv.next (Csv.next s).2).1 = none := next_nil_none _ hst.1 hst.2
  constructor
  · intro hok
    refine ⟨?_, hnone⟩
    simp only [Csv.next, if_neg hex', hrl, if_neg hr0]
    rcases hok with hlen | hflex | hlen
    · simp only [hlen]
    · cases hlen2 : s.len with
      | none => rfl
      | some n =>
        split
        · rename_i heq
          exact absurd heq (by simp)
        · split
          · rename_i hcond
            exact absurd hcond.2 (by simp [hflex])
          · rfl
    · simp only [hlen]
      rw [if_neg (by simp [hc])]
  · intro n hlen hn hflex
    refine ⟨?_, hnone⟩
    simp only [Csv.next, if_neg hex', hrl, if_neg hr0, hlen]
    rw [if_pos ⟨by rw [hc]; exact hn, hflex⟩]
    simp [hc]

/-- Claim C8 counterexample: the unterminated final record of the input
a,b LF c is not turned into a Row — on a non-flexible reader whose first
row learned two columns, the second call yields ColumnMismatch(2, 1), so
"the accumulated bytes form one final complete Row" fails as stated. -/
theorem C8_counterexample_mismatch :
    (Csv.next (⟨44, false, none, false, [[97, 44, 98, 10, 99]]⟩ : Csv)).1
        = some (.ok ⟨[97, 44, 98], [1, 3]⟩) ∧
    (Csv.next (Csv.next (⟨44, false, none, false, [[97, 44, 98, 10, 99]]⟩ : Csv)).2).1
        = some (.error (.columnMismatch 2 1)) :=
  ⟨rfl, rfl⟩

/-- Claim C8 witness: the amended theorem applied to the unterminated input
a,b on a fresh reader (final Row, then none) and to the unterminated input
c on a reader expecting two columns (ColumnMismatch, then none). -/
theorem C8_witness_app :
    ((Csv.next (⟨44, false, none, false, [[97, 44, 98]]⟩ : Csv)).1
        = some (.ok ⟨trimCR [97, 44, 98], [1] ++ [(trimCR [97, 44, 98]).length]⟩) ∧
      (Csv.next (Csv.next (⟨44, false, none, false, [[97, 44, 98]]⟩ : Csv)).2).1 = none) ∧
    ((Csv.next (⟨44, false, some 2, false, [[99]]⟩ : Csv)).1
        = some (.error (.columnMismatch 2 1)) ∧
      (Csv.next (Csv.next (⟨44, false, some 2, false, [[99]]⟩ : Csv)).2).1 = none) := by
  constructor
  · exact (C8_eof_final_row ⟨44, false, none, false, [[97, 44, 98]]⟩ 3 [97, 44, 98] [1]
      rfl rfl (by decide)).1 (Or.inl rfl)
  · exact (C8_eof_final_row ⟨44, false, some 2, false, [[99]]⟩ 1 [99] []
      rfl rfl (by decide)).2 2 rfl (by decide) rfl

/-- Claim C9: text-column access fails exactly when the row's line bytes
are not valid UTF-8, the failure kind is InvalidEncoding, the check is made
once per view construction, and byte-column access never fails (it always
yields one slice per recorded column). -/
theorem C9_columns_utf8 :
    (∀ r : Row, (∃ v, Row.columns r = .ok v) ↔ validUtf8 r.line = true) ∧
    (∀ r : Row, validUtf8 r.line = false → Row.columns r = .error .invalidEncoding) ∧
    (∀ r : Row, (Row.bytes_columns r).length = r.cols.length) := by
  refine ⟨?_, ?_, ?_⟩
  · intro r
    unfold Row.columns
    by_cases hv : validUtf8 r.line
    · simp [hv]
    · simp [hv]
  · intro r hv
    unfold Row.columns
    rw [hv]
    simp
  · intro r
    unfold Row.bytes_columns colSlices
    rw [List.length_map, sliceRanges_length]

/-- Claim C9 witness: the column-access theorem applied to a row holding
the invalid byte 255. -/
theorem C9_witness_app :
    Row.columns ⟨[255], [1]⟩ = .error .invalidEncoding ∧
    (Row.bytes_columns ⟨[255], [1]⟩).length = ([1] : List Nat).length :=
  ⟨C9_columns_utf8.2.1 ⟨[255], [1]⟩ (by decide),
   C9_columns_utf8.2.2 ⟨[255], [1]⟩⟩

/-- Claim C10: an input chunk holding a single line-feed byte yields one
successful Row with an empty line buffer and cols = [0] (one column), and
that count participates in the expected_columns schema check. -/
theorem C10_empty_line (s : Csv) (hex : s.exit = false) (hch : s.chunks = [[10]]) :
    (s.len = none →
        Csv.next s = (some (.ok ⟨[], [0]⟩), { s with len := some 1, chunks := [] })) ∧
    (∀ n, s.len = some n → n ≠ 1 → s.flexible = false →
        Csv.next s = (some (.error (.columnMismatch n 1)), { s with chunks := [] })) := by
  have hrl : read_line s.delimiter s.chunks false 0 [] [] = .ok (1, [], [], []) := by
    rw [hch]
    simp only [read_line]
    rw [if_neg (by decide : ¬([10] : List Nat) = []), scan_eq_newline]
    simp
  constructor
  · intro hlen
    simp only [Csv.next, if_neg (by rw [hex]; simp : ¬s.exit = true), hrl,
      if_neg (by decide : ¬(1 : Nat) = 0), hlen]
    rfl
  · intro n hlen hn1 hflex
    simp only [Csv.next, if_neg (by rw [hex]; simp : ¬s.exit = true), hrl,
      if_neg (by decide : ¬(1 : Nat) = 0), hlen]
    have hcond : n ≠ (([] : List Nat) ++ [(trimCR ([] : List Nat)).length]).length ∧
        s.flexible = false := by
      refine ⟨by simpa [trimCR] using hn1, hflex⟩
    rw [if_pos hcond]
    rfl

/-- Claim C10 witness: the empty-line theorem applied with the comma
delimiter, both on a fresh reader and on one expecting two columns. -/
theorem C10_witness_app :
    Csv.next (⟨44, false, none, false, [[10]]⟩ : Csv)
      = (some (.ok ⟨[], [0]⟩), ⟨44, false, some 1, false, []⟩) ∧
    Csv.next (⟨44, false, some 2, false, [[10]]⟩ : Csv)
      = (some (.error (.columnMismatch 2 1)), ⟨44, false, some 2, false, []⟩) :=
  ⟨(C10_empty_line ⟨44, false, none, false, [[10]]⟩ rfl rfl).1 rfl,
   (C10_empty_line ⟨44, false, some 2, false, [[10]]⟩ rfl rfl).2 2 rfl (by decide) rfl⟩

/-- Claim C7 counterexample: CRLF/LF equivalence fails as universally stated.
With comma delimiter, the record body a CR (ending in a carriage return)
terminated by CRLF yields row line [97, 13] while the same body terminated by
LF yields row line [97]; with the delimiter set to CR, or with a body whose
quote is left open, the two terminations also disagree. -/
theorem C7_counterexample_bodies :
    (Csv.next ⟨44, false, none, false, [[97, 13, 13, 10]]⟩).1
        = some (.ok ⟨[97, 13], [2]⟩) ∧
    (Csv.next ⟨44, false, none, false, [[97, 13, 10]]⟩).1
        = some (.ok ⟨[97], [1]⟩) ∧
    (Csv.next ⟨44, false, none, false, [[97, 13, 13, 10]]⟩).1
        ≠ (Csv.next ⟨44, false, none, false, [[97, 13, 10]]⟩).1 ∧
    (Csv.next ⟨13, false, none, false, [[97, 13, 10]]⟩).1
        ≠ (Csv.next ⟨13, false, none, false, [[97, 10]]⟩).1 ∧
    (Csv.next ⟨44, false, none, false, [[34, 97, 13, 10]]⟩).1
        ≠ (Csv.next ⟨44, false, none, false, [[34, 97, 10]]⟩).1 :=
  ⟨rfl, rfl, by decide, by decide, by decide⟩

/-- Claim C7 witness: the CRLF-normalization theorem applied to the record
body a comma b with the comma delimiter. -/
theorem C7_witness_app :
    (Csv.next ⟨44, false, none, false, [[97, 44, 98] ++ [13, 10]]⟩).1
      = (Csv.next ⟨44, false, none, false, [[97, 44, 98] ++ [10]]⟩).1 :=
  C7_crlf 44 false none [97, 44, 98] [1] (by decide) rfl (by decide)

end QuickCsv
